import Mathlib

/-!
Shallow embedding of the Hack assembler found under `src/06/assembler/src`
(`error.rs`, `parser.rs`, `code_translator.rs`, `symbols.rs`, `runner.rs`).

Machine integers (`u16`) are modelled as `Nat`; the one place where the
source relies on `u16` wraparound (the ROM instruction-address counter,
which is incremented without a bound check) is modelled with an explicit
`% 65536`.  Fallible Rust functions returning `Result<T>` are modelled as
`Except ErrorKind T`; functions taking `&mut self` are modelled by explicit
state passing, returning the updated state alongside the result so that the
state after a failing call is still observable (as it is in Rust).
-/

deriving instance DecidableEq for Except

namespace Assembler

/-- Error kinds, from `error.rs` (`enum ErrorKind`). -/
inductive ErrorKind where
  | EndOfFile
  | InvalidCmdType
  | InvalidInFileExt
  | InvalidOutFileExt
  | InvalidSyntax
  | MissingArguments
  | MissingOutputFilename
  | RAMFull
  | SymbolExists
deriving DecidableEq, Fintype

/-- Message strings, from `ErrorKind::as_str` in `error.rs`. -/
def ErrorKind.as_str : ErrorKind → String
  | ErrorKind.EndOfFile => "the end of the file has been reached"
  | ErrorKind.InvalidSyntax => "invalid syntax"
  | ErrorKind.InvalidCmdType => "this function cannot act on Commands of this type"
  | ErrorKind.MissingArguments => "input and output filenames were not provided"
  | ErrorKind.MissingOutputFilename => "output filename not provided"
  | ErrorKind.InvalidInFileExt => "invalid input file extension, only '.asm' accepted"
  | ErrorKind.InvalidOutFileExt => "invalid output file extension, only '.hack' accepted"
  | ErrorKind.SymbolExists => "this symbol has already been defined"
  | ErrorKind.RAMFull => "there are no more free RAM addresses"

/-- Command variants, from `parser.rs` (`enum Command`), each carrying the
comment-stripped, trimmed command text. -/
inductive Command where
  | ACommand (s : String)
  | CCommand (s : String)
  | LCommand (s : String)
deriving DecidableEq

/-! ## Character classes of the classification regexes in `parser.rs`

The regex crate's POSIX classes are ASCII: `[[:alpha:]]` is `[A-Za-z]` and
`[[:word:]]` is `[0-9A-Za-z_]`; `Char.isAlpha` / `Char.isDigit` in Lean are
exactly these ASCII classes. -/

/-- The `comp`-field character class `[[:alpha:]01\-!+&|]` of the
C-command regexes. -/
def isCompChar (c : Char) : Bool :=
  c.isAlpha || c == '0' || c == '1' || c == '-' || c == '!' || c == '+' || c == '&' || c == '|'

/-- The symbol character class `[[:word:].$]` used by the L-command regex
and by `Parser::symbol`. -/
def isSymChar (c : Char) : Bool :=
  c.isAlpha || c.isDigit || c == '_' || c == '.' || c == '$'

/-- Splits a character list at the first occurrence of `sep`, returning the
parts before and after it, or `none` when `sep` does not occur. -/
def breakAt (sep : Char) : List Char → Option (List Char × List Char)
  | [] => none
  | c :: rest =>
    if c = sep then some ([], rest)
    else
      match breakAt sep rest with
      | some (a, b) => some (c :: a, b)
      | none => none

/-- The regex `^[[:alpha:]]+=[[:alpha:]01\-!+&|]+$` (`dest=comp`).  Neither
class contains `=`, so the regex matches exactly when the input splits at
its first `=` into a nonempty alpha part and a nonempty comp part. -/
def matchDestComp (l : List Char) : Bool :=
  match breakAt '=' l with
  | some (a, b) => !a.isEmpty && a.all Char.isAlpha && !b.isEmpty && b.all isCompChar
  | none => false

/-- The regex `^[[:alpha:]01\-!+&|]+;[[:alpha:]]+$` (`comp;jump`).  Neither
class contains `;`, so splitting at the first `;` is exact. -/
def matchCompJump (l : List Char) : Bool :=
  match breakAt ';' l with
  | some (a, b) => !a.isEmpty && a.all isCompChar && !b.isEmpty && b.all Char.isAlpha
  | none => false

/-- The regex `^[[:alpha:]]+=[[:alpha:]01\-!+&|]+;[[:alpha:]]+$`
(`dest=comp;jump`).  The classes contain neither `=` nor `;`. -/
def matchDestCompJump (l : List Char) : Bool :=
  match breakAt '=' l with
  | some (a, r) =>
    match breakAt ';' r with
    | some (b, c) =>
      !a.isEmpty && a.all Char.isAlpha && !b.isEmpty && b.all isCompChar &&
        !c.isEmpty && c.all Char.isAlpha
    | none => false
  | none => false

/-- The `RegexSet` `re_c` of `Parser::set_command_type`: any of the three
C-command shapes matches. -/
def matchC (l : List Char) : Bool :=
  matchDestComp l || matchCompJump l || matchDestCompJump l

/-- The regex `^\([[:word:].$]+\)$` (`re_l`).  The symbol class contains
neither parenthesis, so the first `)` after the opening one must be the
closing parenthesis and must end the string. -/
def matchL (l : List Char) : Bool :=
  if l.head? = some '(' then
    match breakAt ')' l.tail with
    | some (mid, after) => !mid.isEmpty && mid.all isSymChar && after.isEmpty
    | none => false
  else false

/-- Comment stripping of `Parser::set_command`: truncate at the first
occurrence of `//` (`cmd.find("//")` + `replace_range`). -/
def stripCommentChars : List Char → List Char
  | [] => []
  | '/' :: '/' :: _ => []
  | c :: rest => c :: stripCommentChars rest

/-- Whitespace trimming of `str::trim` (the ASCII fragment of
`char::is_whitespace`, which is all the claims exercise): drop whitespace
from both ends. -/
def trimChars (l : List Char) : List Char :=
  ((l.dropWhile Char.isWhitespace).reverse.dropWhile Char.isWhitespace).reverse

/-- Comment stripping followed by whitespace trimming, as in
`Parser::set_command`. -/
def cleanLine (raw : String) : String :=
  String.mk (trimChars (stripCommentChars raw.data))

/-- Classification of a nonempty cleaned line, from
`Parser::set_command_type`: the anchored regex `^@` (any line starting with
`@`) is checked first, then the C-command regex set, then the L-command
regex; anything else is an invalid-syntax error. -/
def setCommandType (cmd : String) : Except ErrorKind Command :=
  if cmd.data.head? = some '@' then Except.ok (Command.ACommand cmd)
  else if matchC cmd.data then Except.ok (Command.CCommand cmd)
  else if matchL cmd.data then Except.ok (Command.LCommand cmd)
  else Except.error ErrorKind.InvalidSyntax

/-- One `Parser::advance`/`set_command` step on a raw line: strip the
comment, trim, and classify unless the remainder is empty. -/
def setCommand (raw : String) : Except ErrorKind (Option Command) :=
  if cleanLine raw = "" then Except.ok none
  else (setCommandType (cleanLine raw)).map some

/-- Symbol extraction for an A-command, from `Parser::symbol`: the anchored
regex `^@(?P<symbol>[[:word:].$]+)$` is applied with `Regex::replace`;
when the whole command matches, the inner text is returned, and when it
does not match, `replace` returns the input unchanged. -/
def aSymbol (cmd : String) : String :=
  if cmd.data.head? = some '@' then
    if !cmd.data.tail.isEmpty && cmd.data.tail.all isSymChar then
      String.mk cmd.data.tail
    else cmd
  else cmd

/-- Symbol extraction for an L-command, from `Parser::symbol`: the anchored
regex `^[\(](?P<symbol>[[:word:].$]+)[\)]$` applied with `Regex::replace`,
returning the input unchanged when it does not match. -/
def lSymbol (cmd : String) : String :=
  if cmd.data.head? = some '(' then
    match breakAt ')' cmd.data.tail with
    | some (mid, after) =>
      if !mid.isEmpty && mid.all isSymChar && after.isEmpty then String.mk mid else cmd
    | none => cmd
  else cmd

namespace Parser

/-- Models `Parser::symbol`, which succeeds on A- and L-commands and fails
with an invalid-command-type error on C-commands. -/
def symbol : Command → Except ErrorKind String
  | Command.ACommand cmd => Except.ok (aSymbol cmd)
  | Command.LCommand cmd => Except.ok (lSymbol cmd)
  | Command.CCommand _ => Except.error ErrorKind.InvalidCmdType

/-- Models `Parser::dest`: the unanchored-at-the-end regex
`(^(?P<dest>[[:alpha:]]+)=)` captures a leading alpha run immediately
followed by `=`; since `=` is not an alpha character, the maximal leading
alpha run is the only candidate. -/
def dest : Command → Except ErrorKind (Option String)
  | Command.CCommand cmd =>
    let a := cmd.data.takeWhile Char.isAlpha
    if !a.isEmpty && (cmd.data.drop a.length).head? = some '=' then
      Except.ok (some (String.mk a))
    else Except.ok none
  | _ => Except.error ErrorKind.InvalidCmdType

/-- Scans for the second alternative of the `comp` regex,
`=(?P<comp_1>[comp]+);?`: the first `=` that is immediately followed by at
least one comp-class character yields the maximal comp run after it. -/
def compAfterEq : List Char → Option (List Char)
  | [] => none
  | c :: rest =>
    if c = '=' then
      let b := rest.takeWhile isCompChar
      if !b.isEmpty then some b else compAfterEq rest
    else compAfterEq rest

/-- Models `Parser::comp` with its two regex alternatives,
`^(?P<comp_0>[comp]+);` and `=(?P<comp_1>[comp]+);?`, tried in
leftmost-first order: the anchored first alternative can only apply at the
start of the string and wins there. -/
def comp : Command → Except ErrorKind (Option String)
  | Command.CCommand cmd =>
    let a := cmd.data.takeWhile isCompChar
    if !a.isEmpty && (cmd.data.drop a.length).head? = some ';' then
      Except.ok (some (String.mk a))
    else
      match compAfterEq cmd.data with
      | some b => Except.ok (some (String.mk b))
      | none => Except.ok none
  | _ => Except.error ErrorKind.InvalidCmdType

/-- Models `Parser::jump`: the regex `(;(?P<jump>[[:alpha:]]+)$)` matches
when the maximal alpha suffix is nonempty and is preceded by `;` (the alpha
class excludes `;`, so a matching `;` is necessarily the last one). -/
def jump : Command → Except ErrorKind (Option String)
  | Command.CCommand cmd =>
    let b := (cmd.data.reverse.takeWhile Char.isAlpha).reverse
    if !b.isEmpty && (cmd.data.reverse.drop b.length).head? = some ';' then
      Except.ok (some (String.mk b))
    else Except.ok none
  | _ => Except.error ErrorKind.InvalidCmdType

end Parser

namespace code_translator

/-- Translation of a `dest` mnemonic, from `code_translator.rs` (`fn dest`):
the 3-bit pattern already shifted into bits 5 to 3. -/
def dest (mnemonic : String) : Except ErrorKind Nat :=
  if mnemonic = "null" then Except.ok (0b000 <<< 3)
  else if mnemonic = "M" then Except.ok (0b001 <<< 3)
  else if mnemonic = "D" then Except.ok (0b010 <<< 3)
  else if mnemonic = "MD" then Except.ok (0b011 <<< 3)
  else if mnemonic = "A" then Except.ok (0b100 <<< 3)
  else if mnemonic = "AM" then Except.ok (0b101 <<< 3)
  else if mnemonic = "AD" then Except.ok (0b110 <<< 3)
  else if mnemonic = "AMD" then Except.ok (0b111 <<< 3)
  else Except.error ErrorKind.InvalidSyntax

/-- Translation of a `comp` mnemonic, from `code_translator.rs` (`fn comp`):
the 7-bit pattern (a/m selector plus six ALU control bits) already shifted
into bits 12 to 6. -/
def comp (mnemonic : String) : Except ErrorKind Nat :=
  if mnemonic = "0" then Except.ok (0b0101010 <<< 6)
  else if mnemonic = "1" then Except.ok (0b0111111 <<< 6)
  else if mnemonic = "-1" then Except.ok (0b0111010 <<< 6)
  else if mnemonic = "D" then Except.ok (0b0001100 <<< 6)
  else if mnemonic = "A" then Except.ok (0b0110000 <<< 6)
  else if mnemonic = "!D" then Except.ok (0b0001101 <<< 6)
  else if mnemonic = "!A" then Except.ok (0b0110001 <<< 6)
  else if mnemonic = "-D" then Except.ok (0b0001111 <<< 6)
  else if mnemonic = "-A" then Except.ok (0b0110011 <<< 6)
  else if mnemonic = "D+1" then Except.ok (0b0011111 <<< 6)
  else if mnemonic = "A+1" then Except.ok (0b0110111 <<< 6)
  else if mnemonic = "D-1" then Except.ok (0b0001110 <<< 6)
  else if mnemonic = "A-1" then Except.ok (0b0110010 <<< 6)
  else if mnemonic = "D+A" then Except.ok (0b0000010 <<< 6)
  else if mnemonic = "D-A" then Except.ok (0b0010011 <<< 6)
  else if mnemonic = "A-D" then Except.ok (0b0000111 <<< 6)
  else if mnemonic = "D&A" then Except.ok (0b0000000 <<< 6)
  else if mnemonic = "D|A" then Except.ok (0b0010101 <<< 6)
  else if mnemonic = "M" then Except.ok (0b1110000 <<< 6)
  else if mnemonic = "!M" then Except.ok (0b1110001 <<< 6)
  else if mnemonic = "-M" then Except.ok (0b1110011 <<< 6)
  else if mnemonic = "M+1" then Except.ok (0b1110111 <<< 6)
  else if mnemonic = "M-1" then Except.ok (0b1110010 <<< 6)
  else if mnemonic = "D+M" then Except.ok (0b1000010 <<< 6)
  else if mnemonic = "D-M" then Except.ok (0b1010011 <<< 6)
  else if mnemonic = "M-D" then Except.ok (0b1000111 <<< 6)
  else if mnemonic = "D&M" then Except.ok (0b1000000 <<< 6)
  else if mnemonic = "D|M" then Except.ok (0b1010101 <<< 6)
  else Except.error ErrorKind.InvalidSyntax

/-- Translation of a `jump` mnemonic, from `code_translator.rs` (`fn jump`):
the 3-bit pattern in bits 2 to 0 (no shift). -/
def jump (mnemonic : String) : Except ErrorKind Nat :=
  if mnemonic = "null" then Except.ok 0b000
  else if mnemonic = "JGT" then Except.ok 0b001
  else if mnemonic = "JEQ" then Except.ok 0b010
  else if mnemonic = "JGE" then Except.ok 0b011
  else if mnemonic = "JLT" then Except.ok 0b100
  else if mnemonic = "JNE" then Except.ok 0b101
  else if mnemonic = "JLE" then Except.ok 0b110
  else if mnemonic = "JMP" then Except.ok 0b111
  else Except.error ErrorKind.InvalidSyntax

end code_translator

/-- The symbol table, from `symbols.rs`: the `HashMap<String, u16>` is
modelled as an association list in which a key is inserted only when
absent, so lookup order is immaterial. -/
structure SymbolTable where
  table : List (String × Nat)
  ram_address : Nat
  rom_address : Nat
deriving DecidableEq

namespace SymbolTable

/-- Models `SymbolTable::new` from `symbols.rs`: the 23 predefined symbols
(whose names are pairwise distinct, so the insertion loop's duplicate panic
cannot fire), next RAM address 16, next ROM address 0. -/
def new : SymbolTable :=
  { table :=
      [("SP", 0), ("LCL", 1), ("ARG", 2), ("THIS", 3), ("THAT", 4),
       ("R0", 0), ("R1", 1), ("R2", 2), ("R3", 3), ("R4", 4),
       ("R5", 5), ("R6", 6), ("R7", 7), ("R8", 8), ("R9", 9),
       ("R10", 10), ("R11", 11), ("R12", 12), ("R13", 13), ("R14", 14),
       ("R15", 15), ("SCREEN", 16384), ("KBD", 24576)],
    ram_address := 16,
    rom_address := 0 }

/-- Models `SymbolTable::get_address` (`HashMap::get`). -/
def get_address (t : SymbolTable) (s : String) : Option Nat :=
  t.table.lookup s

/-- Models `SymbolTable::inc_ram_address`: fails with `RAMFull` when the
next-free RAM address counter is 16383, otherwise increments it and
returns `Ok(0)`.  The table state is returned in both cases. -/
def inc_ram_address (t : SymbolTable) : Except ErrorKind Nat × SymbolTable :=
  if t.ram_address = 16383 then (Except.error ErrorKind.RAMFull, t)
  else (Except.ok 0, { t with ram_address := t.ram_address + 1 })

/-- Models `SymbolTable::inc_rom_address`: the `u16` counter is incremented
with wraparound (the source performs an unchecked `+= 1`). -/
def inc_rom_address (t : SymbolTable) : SymbolTable :=
  { t with rom_address := (t.rom_address + 1) % 65536 }

/-- Models the private `SymbolTable::insert`: fails with `SymbolExists` and
leaves the map untouched when the key is present, otherwise binds the key
and returns the address. -/
def insert (t : SymbolTable) (s : String) (address : Nat) :
    Except ErrorKind Nat × SymbolTable :=
  if (t.table.lookup s).isSome then (Except.error ErrorKind.SymbolExists, t)
  else (Except.ok address, { t with table := (s, address) :: t.table })

/-- Models `SymbolTable::insert_variable`: insert at the next free RAM
address. -/
def insert_variable (t : SymbolTable) (s : String) :
    Except ErrorKind Nat × SymbolTable :=
  t.insert s t.ram_address

/-- Models `SymbolTable::insert_label`: insert at the next ROM address. -/
def insert_label (t : SymbolTable) (s : String) :
    Except ErrorKind Nat × SymbolTable :=
  t.insert s t.rom_address

end SymbolTable

/-- Decimal value of a digit string. -/
def digitsVal (l : List Char) : Nat :=
  l.foldl (fun a c => 10 * a + (c.toNat - '0'.toNat)) 0

/-- Models `str::parse::<u16>`: an optional leading `+` sign followed by at
least one ASCII digit, with the value within the `u16` range; anything
else fails. -/
def parseU16 (s : String) : Option Nat :=
  if s.data.head? = some '+' then
    if !s.data.tail.isEmpty && s.data.tail.all Char.isDigit then
      if digitsVal s.data.tail < 65536 then some (digitsVal s.data.tail) else none
    else none
  else
    if !s.data.isEmpty && s.data.all Char.isDigit then
      if digitsVal s.data < 65536 then some (digitsVal s.data) else none
    else none

namespace runner

/-- The `dest` field of `runner::translate_c_cmd`: the looked-up pattern
for a present mnemonic, `0` when absent. -/
def dest_field (destM : Option String) : Except ErrorKind Nat :=
  match destM with
  | some s => code_translator.dest s
  | none => Except.ok 0

/-- The `comp` field of `runner::translate_c_cmd`. -/
def comp_field (compM : Option String) : Except ErrorKind Nat :=
  match compM with
  | some s => code_translator.comp s
  | none => Except.ok 0

/-- The `jump` field of `runner::translate_c_cmd`. -/
def jump_field (jumpM : Option String) : Except ErrorKind Nat :=
  match jumpM with
  | some s => code_translator.jump s
  | none => Except.ok 0

/-- The field-combination part of `runner::translate_c_cmd`: start from the
fixed opcode `0b1110000000000000` and add the three (pre-shifted, disjoint)
fields, propagating any lookup error. -/
def translate_c_fields (destM compM jumpM : Option String) : Except ErrorKind Nat :=
  match dest_field destM with
  | Except.error e => Except.error e
  | Except.ok d =>
    match comp_field compM with
    | Except.error e => Except.error e
    | Except.ok c =>
      match jump_field jumpM with
      | Except.error e => Except.error e
      | Except.ok j => Except.ok (0b1110000000000000 + (d + c + j))

/-- Models `runner::translate_c_cmd` on the current C-command text: the
mnemonic substrings are extracted with `Parser::dest`/`comp`/`jump` (which
never fail on a C-command) and combined by `translate_c_fields`. -/
def translate_c_cmd (cmd : String) : Except ErrorKind Nat :=
  match Parser.dest (Command.CCommand cmd) with
  | Except.error e => Except.error e
  | Except.ok destM =>
    match Parser.comp (Command.CCommand cmd) with
    | Except.error e => Except.error e
    | Except.ok compM =>
      match Parser.jump (Command.CCommand cmd) with
      | Except.error e => Except.error e
      | Except.ok jumpM => translate_c_fields destM compM jumpM

/-- Models `runner::translate_a_cmd` on the current A-command text: try the
payload as a `u16` literal, then as an existing symbol, and finally insert
it as a new variable at the next free RAM address and advance that
counter.  The table state is returned alongside the result. -/
def translate_a_cmd (t : SymbolTable) (cmd : String) :
    Except ErrorKind Nat × SymbolTable :=
  match parseU16 (aSymbol cmd) with
  | some b => (Except.ok b, t)
  | none =>
    match t.get_address (aSymbol cmd) with
    | some b => (Except.ok b, t)
    | none =>
      match t.insert_variable (aSymbol cmd) with
      | (Except.error e, t') => (Except.error e, t')
      | (Except.ok b, t') =>
        match t'.inc_ram_address with
        | (Except.error e, t'') => (Except.error e, t'')
        | (Except.ok _, t'') => (Except.ok b, t'')

/-- Models `runner::process_l_cmd` on one classified line: insert the label
symbol at the current ROM address for an L-command, advance the ROM
address for an A- or C-command, do nothing for a non-command line. -/
def process_l_cmd (t : SymbolTable) (oc : Option Command) :
    Except ErrorKind Nat × SymbolTable :=
  match oc with
  | some (Command.LCommand cmd) =>
    match t.insert_label (lSymbol cmd) with
    | (Except.ok _, t') => (Except.ok 0, t')
    | (Except.error e, t') => (Except.error e, t')
  | some _ => (Except.ok 0, t.inc_rom_address)
  | none => (Except.ok 0, t)

/-- Models `runner::first_pass` over the sequence of raw input lines. -/
def first_pass (t : SymbolTable) : List String → Except ErrorKind Nat × SymbolTable
  | [] => (Except.ok 0, t)
  | raw :: rest =>
    match setCommand raw with
    | Except.error e => (Except.error e, t)
    | Except.ok oc =>
      match process_l_cmd t oc with
      | (Except.ok _, t') => first_pass t' rest
      | (Except.error e, t') => (Except.error e, t')

/-- Models `runner::translate_line` on one classified line: an A- or
C-command yields one machine word, anything else yields none. -/
def translate_line (t : SymbolTable) (oc : Option Command) :
    Except ErrorKind (Option Nat) × SymbolTable :=
  match oc with
  | some (Command.ACommand cmd) =>
    match translate_a_cmd t cmd with
    | (Except.ok b, t') => (Except.ok (some b), t')
    | (Except.error e, t') => (Except.error e, t')
  | some (Command.CCommand cmd) =>
    match translate_c_cmd cmd with
    | Except.ok b => (Except.ok (some b), t)
    | Except.error e => (Except.error e, t)
  | _ => (Except.ok none, t)

/-- Models `runner::second_pass` over the raw input lines, collecting the
emitted machine words in order. -/
def second_pass (t : SymbolTable) : List String → Except ErrorKind (List Nat) × SymbolTable
  | [] => (Except.ok [], t)
  | raw :: rest =>
    match setCommand raw with
    | Except.error e => (Except.error e, t)
    | Except.ok oc =>
      match translate_line t oc with
      | (Except.ok none, t') => second_pass t' rest
      | (Except.ok (some b), t') =>
        match second_pass t' rest with
        | (Except.ok out, t'') => (Except.ok (b :: out), t'')
        | (Except.error e, t'') => (Except.error e, t'')
      | (Except.error e, t') => (Except.error e, t')

end runner

/-- A raw line that classifies as an A- or C-command, i.e. one that
occupies an instruction address and emits one output word. -/
def isInstrLine (raw : String) : Bool :=
  match setCommand raw with
  | Except.ok (some (Command.ACommand _)) => true
  | Except.ok (some (Command.CCommand _)) => true
  | _ => false

/-- The instruction address of line `i`: the 0-based count of
address/compute instruction lines strictly before it. -/
def instrAddr (lines : List String) (i : Nat) : Nat :=
  ((lines.take i).filter isInstrLine).length

/-! ## Documented mnemonic sets and bit patterns (spec side)

These tables restate the fixed enumerated mnemonic sets and their
documented field patterns from the specification (the `dest` 3-bit
patterns, the `comp` 7-bit a/ALU patterns and the `jump` 3-bit patterns),
to be compared against the lookup functions of `code_translator.rs`. -/

def destPatterns : List (String × Nat) :=
  [("null", 0b000), ("M", 0b001), ("D", 0b010), ("MD", 0b011),
   ("A", 0b100), ("AM", 0b101), ("AD", 0b110), ("AMD", 0b111)]

def compPatterns : List (String × Nat) :=
  [("0", 0b0101010), ("1", 0b0111111), ("-1", 0b0111010), ("D", 0b0001100),
   ("A", 0b0110000), ("!D", 0b0001101), ("!A", 0b0110001), ("-D", 0b0001111),
   ("-A", 0b0110011), ("D+1", 0b0011111), ("A+1", 0b0110111), ("D-1", 0b0001110),
   ("A-1", 0b0110010), ("D+A", 0b0000010), ("D-A", 0b0010011), ("A-D", 0b0000111),
   ("D&A", 0b0000000), ("D|A", 0b0010101), ("M", 0b1110000), ("!M", 0b1110001),
   ("-M", 0b1110011), ("M+1", 0b1110111), ("M-1", 0b1110010), ("D+M", 0b1000010),
   ("D-M", 0b1010011), ("M-D", 0b1000111), ("D&M", 0b1000000), ("D|M", 0b1010101)]

def jumpPatterns : List (String × Nat) :=
  [("null", 0b000), ("JGT", 0b001), ("JEQ", 0b010), ("JGE", 0b011),
   ("JLT", 0b100), ("JNE", 0b101), ("JLE", 0b110), ("JMP", 0b111)]

/-- The fixed enumerated `dest` mnemonic set. -/
def destMnemonics : List String := destPatterns.map Prod.fst

/-- The fixed enumerated `comp` mnemonic set. -/
def compMnemonics : List String := compPatterns.map Prod.fst

/-- The fixed enumerated `jump` mnemonic set. -/
def jumpMnemonics : List String := jumpPatterns.map Prod.fst

/-- Decoding a field value against a mnemonic table: the mnemonic of the
enumerated set whose table entry equals the value. -/
def decodeField (table : String → Except ErrorKind Nat) (ms : List String) (f : Nat) :
    Option String :=
  ms.find? (fun m =>
    match table m with
    | Except.ok v => v == f
    | Except.error _ => false)

/-- Decoding bits 5-3 of an instruction word against the `dest` table. -/
def decodeDest (w : Nat) : Option String :=
  decodeField code_translator.dest destMnemonics ((w / 8 % 8) <<< 3)

/-- Decoding bits 12-6 of an instruction word against the `comp` table. -/
def decodeComp (w : Nat) : Option String :=
  decodeField code_translator.comp compMnemonics ((w / 64 % 128) <<< 6)

/-- Decoding bits 2-0 of an instruction word against the `jump` table. -/
def decodeJump (w : Nat) : Option String :=
  decodeField code_translator.jump jumpMnemonics (w % 8)

/-- The `i`-th fresh variable name of an allocation run: `a`, `aa`,
`aaa`, ... — pairwise-distinct names over the symbol alphabet that collide
with no predefined symbol. -/
def varName (i : Nat) : String :=
  String.mk (List.replicate (i + 1) 'a')

/-- A run of `n` successive new-variable allocations through
`runner::translate_a_cmd`, processing the address instructions
`@a`, `@aa`, ... in order, starting at name index `k`. -/
def allocAux (t : SymbolTable) (k : Nat) : Nat → Except ErrorKind Nat × SymbolTable
  | 0 => (Except.ok 0, t)
  | n + 1 =>
    match runner.translate_a_cmd t ("@" ++ varName k) with
    | (Except.ok _, t') => allocAux t' (k + 1) n
    | (Except.error e, t') => (Except.error e, t')

/-- A run of `n` new-variable allocations against a fresh symbol table. -/
def allocRun (n : Nat) : Except ErrorKind Nat × SymbolTable :=
  allocAux SymbolTable.new 0 n

/-- Helper for C1: a string outside the `dest` set hits the default match
arm of `code_translator::dest`. -/
theorem dest_not_mem (s : String) (hs : s ∉ destMnemonics) :
    code_translator.dest s = Except.error ErrorKind.InvalidSyntax := by
  have h : ∀ m, m ∈ destMnemonics → s ≠ m := fun m hm he => hs (he ▸ hm)
  unfold code_translator.dest
  rw [if_neg (h "null" (by decide)), if_neg (h "M" (by decide)),
    if_neg (h "D" (by decide)), if_neg (h "MD" (by decide)),
    if_neg (h "A" (by decide)), if_neg (h "AM" (by decide)),
    if_neg (h "AD" (by decide)), if_neg (h "AMD" (by decide))]

/-- Helper for C1: a string outside the `comp` set hits the default match
arm of `code_translator::comp`. -/
theorem comp_not_mem (s : String) (hs : s ∉ compMnemonics) :
    code_translator.comp s = Except.error ErrorKind.InvalidSyntax := by
  have h : ∀ m, m ∈ compMnemonics → s ≠ m := fun m hm he => hs (he ▸ hm)
  unfold code_translator.comp
  rw [if_neg (h "0" (by decide)), if_neg (h "1" (by decide)),
    if_neg (h "-1" (by decide)), if_neg (h "D" (by decide)),
    if_neg (h "A" (by decide)), if_neg (h "!D" (by decide)),
    if_neg (h "!A" (by decide)), if_neg (h "-D" (by decide)),
    if_neg (h "-A" (by decide)), if_neg (h "D+1" (by decide)),
    if_neg (h "A+1" (by decide)), if_neg (h "D-1" (by decide)),
    if_neg (h "A-1" (by decide)), if_neg (h "D+A" (by decide)),
    if_neg (h "D-A" (by decide)), if_neg (h "A-D" (by decide)),
    if_neg (h "D&A" (by decide)), if_neg (h "D|A" (by decide)),
    if_neg (h "M" (by decide)), if_neg (h "!M" (by decide)),
    if_neg (h "-M" (by decide)), if_neg (h "M+1" (by decide)),
    if_neg (h "M-1" (by decide)), if_neg (h "D+M" (by decide)),
    if_neg (h "D-M" (by decide)), if_neg (h "M-D" (by decide)),
    if_neg (h "D&M" (by decide)), if_neg (h "D|M" (by decide))]

/-- Helper for C1: a string outside the `jump` set hits the default match
arm of `code_translator::jump`. -/
theorem jump_not_mem (s : String) (hs : s ∉ jumpMnemonics) :
    code_translator.jump s = Except.error ErrorKind.InvalidSyntax := by
  have h : ∀ m, m ∈ jumpMnemonics → s ≠ m := fun m hm he => hs (he ▸ hm)
  unfold code_translator.jump
  rw [if_neg (h "null" (by decide)), if_neg (h "JGT" (by decide)),
    if_neg (h "JEQ" (by decide)), if_neg (h "JGE" (by decide)),
    if_neg (h "JLT" (by decide)), if_neg (h "JNE" (by decide)),
    if_neg (h "JLE" (by decide)), if_neg (h "JMP" (by decide))]

/-- C1 (counterexample to the claim as stated): for a string outside the
enumerated sets the three lookup operations do fail, but with the
`InvalidSyntax` error kind, whose message is "invalid syntax"; the code's
error enumeration (`error.rs`) has no `InvalidMnemonic` kind at all and no
kind whose condition reads "invalid mnemonic". -/
theorem C1_counterexample :
    code_translator.dest "foo" = Except.error ErrorKind.InvalidSyntax ∧
    code_translator.comp "foo" = Except.error ErrorKind.InvalidSyntax ∧
    code_translator.jump "foo" = Except.error ErrorKind.InvalidSyntax ∧
    ErrorKind.as_str ErrorKind.InvalidSyntax = "invalid syntax" ∧
    (∀ e : ErrorKind, ErrorKind.as_str e ≠ "invalid mnemonic") := by
  refine ⟨by decide, by decide, by decide, by decide, by decide⟩

/-- C1 (amended): for every string in each fixed enumerated mnemonic set,
`dest`/`comp`/`jump` return the documented fixed bit pattern (shifted into
its field position: `dest` into bits 5-3, `comp` into bits 12-6, `jump` in
bits 2-0), and for any string outside the set each fails with the
`InvalidSyntax` error kind (the code reuses `InvalidSyntax` for mnemonic
failures; it has no separate `InvalidMnemonic` kind). -/
theorem C1_amended_mnemonic_tables :
    (∀ p ∈ destPatterns, code_translator.dest p.1 = Except.ok (p.2 <<< 3)) ∧
    (∀ s : String, s ∉ destMnemonics →
      code_translator.dest s = Except.error ErrorKind.InvalidSyntax) ∧
    (∀ p ∈ compPatterns, code_translator.comp p.1 = Except.ok (p.2 <<< 6)) ∧
    (∀ s : String, s ∉ compMnemonics →
      code_translator.comp s = Except.error ErrorKind.InvalidSyntax) ∧
    (∀ p ∈ jumpPatterns, code_translator.jump p.1 = Except.ok p.2) ∧
    (∀ s : String, s ∉ jumpMnemonics →
      code_translator.jump s = Except.error ErrorKind.InvalidSyntax) :=
  ⟨by decide, dest_not_mem, by decide, comp_not_mem, by decide, jump_not_mem⟩

/-- Witness for C1: concrete members and non-members of each set. -/
theorem C1_amended_witness :
    code_translator.dest "AM" = Except.ok (0b101 <<< 3) ∧
    code_translator.dest "AERTGwed" = Except.error ErrorKind.InvalidSyntax ∧
    code_translator.comp "D+A" = Except.ok (0b0000010 <<< 6) ∧
    code_translator.comp "AERTGwed" = Except.error ErrorKind.InvalidSyntax ∧
    code_translator.jump "JNE" = Except.ok 0b101 ∧
    code_translator.jump "AERTGwed" = Except.error ErrorKind.InvalidSyntax :=
  ⟨C1_amended_mnemonic_tables.1 ("AM", 0b101) (by decide),
   C1_amended_mnemonic_tables.2.1 "AERTGwed" (by decide),
   C1_amended_mnemonic_tables.2.2.1 ("D+A", 0b0000010) (by decide),
   C1_amended_mnemonic_tables.2.2.2.1 "AERTGwed" (by decide),
   C1_amended_mnemonic_tables.2.2.2.2.1 ("JNE", 0b101) (by decide),
   C1_amended_mnemonic_tables.2.2.2.2.2 "AERTGwed" (by decide)⟩

/-- Every value produced by `code_translator::dest` is a multiple of 8
below 64 (a 3-bit pattern shifted into bits 5-3). -/
theorem dest_ok_bound {s : String} {v : Nat} (h : code_translator.dest s = Except.ok v) :
    v % 8 = 0 ∧ v < 64 := by
  unfold code_translator.dest at h
  split_ifs at h <;> injection h with h <;> subst h <;> decide

/-- Every value produced by `code_translator::comp` is a multiple of 64
below 8192 (a 7-bit pattern shifted into bits 12-6). -/
theorem comp_ok_bound {s : String} {v : Nat} (h : code_translator.comp s = Except.ok v) :
    v % 64 = 0 ∧ v < 8192 := by
  by_cases hmem : s ∈ compMnemonics
  · fin_cases hmem <;> (injection h with h; subst h; decide)
  · rw [comp_not_mem s hmem] at h
    exact Except.noConfusion h

/-- Every value produced by `code_translator::jump` is a 3-bit pattern in
bits 2-0. -/
theorem jump_ok_bound {s : String} {v : Nat} (h : code_translator.jump s = Except.ok v) :
    v < 8 := by
  unfold code_translator.jump at h
  split_ifs at h <;> injection h with h <;> subst h <;> decide

/-- Bounds for the `dest` field of `translate_c_cmd` (0 when absent). -/
theorem dest_field_bound {destM : Option String} {v : Nat}
    (h : runner.dest_field destM = Except.ok v) : v % 8 = 0 ∧ v < 64 := by
  cases destM with
  | none => injection h with h; subst h; decide
  | some s => exact dest_ok_bound h

/-- Bounds for the `comp` field of `translate_c_cmd` (0 when absent). -/
theorem comp_field_bound {compM : Option String} {v : Nat}
    (h : runner.comp_field compM = Except.ok v) : v % 64 = 0 ∧ v < 8192 := by
  cases compM with
  | none => injection h with h; subst h; decide
  | some s => exact comp_ok_bound h

/-- Bounds for the `jump` field of `translate_c_cmd` (0 when absent). -/
theorem jump_field_bound {jumpM : Option String} {v : Nat}
    (h : runner.jump_field jumpM = Except.ok v) : v < 8 := by
  cases jumpM with
  | none => injection h with h; subst h; decide
  | some s => exact jump_ok_bound h

/-- C2: when the three parsed mnemonic fields are valid (the optional dest
and jump contributing 0 when absent), `translate_c_cmd`'s field combination
emits the word `0b111 ++ comp ++ dest ++ jump`: opcode 111 in bits 15-13,
the comp pattern in bits 12-6, the dest pattern in bits 5-3 and the jump
pattern in bits 2-0, the pre-shifted fields occupying disjoint bit
ranges. -/
theorem C2_compute_encoding (destM compM jumpM : Option String) (dv cv jv : Nat)
    (hd : runner.dest_field destM = Except.ok dv)
    (hc : runner.comp_field compM = Except.ok cv)
    (hj : runner.jump_field jumpM = Except.ok jv) :
    runner.translate_c_fields destM compM jumpM =
      Except.ok (0b1110000000000000 + (dv + cv + jv)) ∧
    (0b1110000000000000 + (dv + cv + jv)) / 2 ^ 13 = 0b111 ∧
    (0b1110000000000000 + (dv + cv + jv)) / 2 ^ 6 % 2 ^ 7 = cv / 2 ^ 6 ∧
    (0b1110000000000000 + (dv + cv + jv)) / 2 ^ 3 % 2 ^ 3 = dv / 2 ^ 3 ∧
    (0b1110000000000000 + (dv + cv + jv)) % 2 ^ 3 = jv ∧
    (destM = none → dv = 0) ∧ (jumpM = none → jv = 0) := by
  obtain ⟨hd8, hd64⟩ := dest_field_bound hd
  obtain ⟨hc64, hc8192⟩ := comp_field_bound hc
  have hj8 := jump_field_bound hj
  refine ⟨?_, by omega, by omega, by omega, by omega, ?_, ?_⟩
  · unfold runner.translate_c_fields
    rw [hd, hc, hj]
  · intro h; subst h; injection hd with hd; omega
  · intro h; subst h; injection hj with hj; omega

/-- Witness for C2: `dest = D`, `comp = D+A`, absent jump. -/
theorem C2_witness :
    runner.translate_c_fields (some "D") (some "D+A") none =
      Except.ok (0b1110000000000000 + (16 + 128 + 0)) ∧
    (0b1110000000000000 + (16 + 128 + 0)) / 2 ^ 13 = 0b111 ∧
    (0b1110000000000000 + (16 + 128 + 0)) / 2 ^ 6 % 2 ^ 7 = 128 / 2 ^ 6 ∧
    (0b1110000000000000 + (16 + 128 + 0)) / 2 ^ 3 % 2 ^ 3 = 16 / 2 ^ 3 ∧
    (0b1110000000000000 + (16 + 128 + 0)) % 2 ^ 3 = 0 ∧
    (some "D" = none → 16 = 0) ∧ ((none : Option String) = none → 0 = 0) :=
  C2_compute_encoding (some "D") (some "D+A") none 16 128 0
    (by decide) (by decide) (by decide)

/-! ## Helper lemmas about symbol extraction and literal parsing -/

/-- The payload of `@s` is extracted verbatim when it is a nonempty string
of symbol-class characters. -/
theorem aSymbol_at (s : String) (hne : s.data ≠ [])
    (hsym : s.data.all isSymChar = true) : aSymbol ("@" ++ s) = s := by
  have hie : s.data.isEmpty = false := by
    cases hd : s.data with
    | nil => exact absurd hd hne
    | cons a l => rfl
  unfold aSymbol
  rw [show ("@" ++ s).data = '@' :: s.data from rfl]
  rw [if_pos (show ('@' :: s.data).head? = some '@' from rfl)]
  rw [show ('@' :: s.data).tail = s.data from rfl]
  rw [if_pos (show (!s.data.isEmpty && s.data.all isSymChar) = true by rw [hie, hsym]; rfl)]

/-- Splitting `l ++ [sep]` at the first `sep` when `l` avoids `sep`. -/
theorem breakAt_append_sep (sep : Char) (l : List Char)
    (h : ∀ c ∈ l, c ≠ sep) : breakAt sep (l ++ [sep]) = some (l, []) := by
  induction l with
  | nil => simp [breakAt]
  | cons c rest ih =>
    have hc : c ≠ sep := h c (by simp)
    have hr := ih (fun d hd => h d (by simp [hd]))
    simp [breakAt, hc, hr]

/-- The payload of `(s)` is extracted verbatim when it is a nonempty
string of symbol-class characters. -/
theorem lSymbol_paren (s : String) (hne : s.data ≠ [])
    (hsym : s.data.all isSymChar = true) : lSymbol ("(" ++ s ++ ")") = s := by
  have hie : s.data.isEmpty = false := by
    cases hd : s.data with
    | nil => exact absurd hd hne
    | cons a l => rfl
  have hnp : ∀ c ∈ s.data, c ≠ ')' := by
    intro c hc he
    have := List.all_eq_true.mp hsym c hc
    rw [he] at this
    exact absurd this (by decide)
  unfold lSymbol
  rw [show ("(" ++ s ++ ")").data = '(' :: (s.data ++ [')']) from rfl]
  rw [if_pos (show ('(' :: (s.data ++ [')'])).head? = some '(' from rfl)]
  rw [show ('(' :: (s.data ++ [')'])).tail = s.data ++ [')'] from rfl]
  rw [breakAt_append_sep ')' s.data hnp]
  show (if (!s.data.isEmpty && s.data.all isSymChar && ([] : List Char).isEmpty) = true then
      String.mk s.data else "(" ++ s ++ ")") = s
  rw [if_pos (show (!s.data.isEmpty && s.data.all isSymChar && ([] : List Char).isEmpty) = true by
    rw [hie, hsym]; rfl)]

/-- Digits are symbol-class characters. -/
theorem all_sym_of_all_digit {l : List Char} (h : l.all Char.isDigit = true) :
    l.all isSymChar = true := by
  rw [List.all_eq_true] at h ⊢
  intro c hc
  have := h c hc
  simp [isSymChar, this]

/-- A nonempty all-digit string within the `u16` range parses to its
decimal value. -/
theorem parseU16_digits (s : String) (hne : s.data ≠ [])
    (hdig : s.data.all Char.isDigit = true) (hlt : digitsVal s.data < 65536) :
    parseU16 s = some (digitsVal s.data) := by
  have hie : s.data.isEmpty = false := by
    cases hd : s.data with
    | nil => exact absurd hd hne
    | cons a l => rfl
  have hplus : s.data.head? ≠ some '+' := by
    cases hd : s.data with
    | nil => exact absurd hd hne
    | cons a l =>
      intro h
      injection h with h
      have := List.all_eq_true.mp hdig a (by rw [hd]; simp)
      rw [h] at this
      exact absurd this (by decide)
  unfold parseU16
  rw [if_neg hplus, if_pos (by rw [hie, hdig]; rfl), if_pos hlt]

/-- A nonempty all-digit string beyond the `u16` range fails to parse. -/
theorem parseU16_digits_big (s : String) (hne : s.data ≠ [])
    (hdig : s.data.all Char.isDigit = true) (hge : 65536 ≤ digitsVal s.data) :
    parseU16 s = none := by
  have hie : s.data.isEmpty = false := by
    cases hd : s.data with
    | nil => exact absurd hd hne
    | cons a l => rfl
  have hplus : s.data.head? ≠ some '+' := by
    cases hd : s.data with
    | nil => exact absurd hd hne
    | cons a l =>
      intro h
      injection h with h
      have := List.all_eq_true.mp hdig a (by rw [hd]; simp)
      rw [h] at this
      exact absurd this (by decide)
  unfold parseU16
  rw [if_neg hplus, if_pos (by rw [hie, hdig]; rfl), if_neg (by omega)]

/-- A string whose first character is neither `+` nor a digit fails to
parse as a `u16`. -/
theorem parseU16_none_head (s : String) (c : Char) (rest : List Char)
    (hd : s.data = c :: rest) (hplus : c ≠ '+') (hdig : c.isDigit = false) :
    parseU16 s = none := by
  unfold parseU16
  rw [hd]
  rw [if_neg (by intro h; injection h with h; exact hplus h)]
  rw [if_neg (by simp [List.all, hdig])]

/-- C5: an address instruction whose payload is a decimal literal in the
15-bit range 0-32767 (the bound the specification puts on valid input) is
emitted as the literal value itself, with the symbol table untouched and
bit 15 of the emitted word equal to 0. -/
theorem C5_literal_passthrough (t : SymbolTable) (s : String)
    (hne : s.data ≠ []) (hdig : s.data.all Char.isDigit = true)
    (hval : digitsVal s.data ≤ 32767) :
    runner.translate_a_cmd t ("@" ++ s) = (Except.ok (digitsVal s.data), t) ∧
    (digitsVal s.data).testBit 15 = false := by
  have h1 := aSymbol_at s hne (all_sym_of_all_digit hdig)
  have h2 := parseU16_digits s hne hdig (by omega)
  constructor
  · unfold runner.translate_a_cmd
    rw [h1, h2]
  · exact Nat.testBit_eq_false_of_lt (by omega)

/-- Witness for C5: the line `@21`. -/
theorem C5_witness :
    runner.translate_a_cmd SymbolTable.new ("@" ++ "21") =
      (Except.ok (digitsVal "21".data), SymbolTable.new) ∧
    (digitsVal "21".data).testBit 15 = false :=
  C5_literal_passthrough SymbolTable.new "21" (by decide) (by decide) (by decide)

/-- C9: any raw line whose comment-stripped, trimmed content is nonempty
and begins with `@` classifies successfully as an address instruction: the
anchored regex `^@` is tested first and constrains nothing past the `@`,
so the invalid-syntax branch is unreachable for such lines. -/
theorem C9_at_classification (raw : String)
    (h1 : cleanLine raw ≠ "") (h2 : (cleanLine raw).data.head? = some '@') :
    setCommand raw = Except.ok (some (Command.ACommand (cleanLine raw))) := by
  unfold setCommand setCommandType
  rw [if_neg h1, if_pos h2]
  rfl

/-- Witness for C9: the line `  @ // bare at sign`, whose cleaned content
is the single character `@` with no payload at all. -/
theorem C9_witness :
    setCommand "  @ // bare at sign" =
      Except.ok (some (Command.ACommand (cleanLine "  @ // bare at sign"))) :=
  C9_at_classification "  @ // bare at sign" (by decide) (by decide)

/-- C10: an address instruction whose payload is a digit string denoting a
value above 65535 is not rejected: the `u16` parse fails, the digit string
is looked up as a symbol and, when absent, inserted as a new variable, so
the emitted word is the next free variable RAM address rather than the
literal value, and no error is raised (the RAM counter not being at its
cap). -/
theorem C10_large_literal_as_variable (t : SymbolTable) (s : String)
    (hne : s.data ≠ []) (hdig : s.data.all Char.isDigit = true)
    (hval : 65536 ≤ digitsVal s.data)
    (habs : t.get_address s = none)
    (hram : t.ram_address < 16383) :
    runner.translate_a_cmd t ("@" ++ s) =
      (Except.ok t.ram_address,
        { table := (s, t.ram_address) :: t.table,
          ram_address := t.ram_address + 1,
          rom_address := t.rom_address }) ∧
    t.ram_address ≠ digitsVal s.data := by
  have h1 := aSymbol_at s hne (all_sym_of_all_digit hdig)
  have h2 := parseU16_digits_big s hne hdig hval
  have habs' : t.table.lookup s = none := habs
  have hins : t.insert_variable s =
      (Except.ok t.ram_address, { t with table := (s, t.ram_address) :: t.table }) := by
    unfold SymbolTable.insert_variable SymbolTable.insert
    rw [if_neg (by rw [habs']; simp)]
  have hinc : ({ t with table := (s, t.ram_address) :: t.table } : SymbolTable).inc_ram_address =
      (Except.ok 0,
        { table := (s, t.ram_address) :: t.table,
          ram_address := t.ram_address + 1,
          rom_address := t.rom_address }) := by
    show (if t.ram_address = 16383 then _ else _) = _
    rw [if_neg (by omega)]
  constructor
  · simp only [runner.translate_a_cmd, h1, h2, habs, hins, hinc]
  · omega

/-- Witness for C10: the line `@70000` against a fresh symbol table
allocates RAM address 16. -/
theorem C10_witness :
    runner.translate_a_cmd SymbolTable.new ("@" ++ "70000") =
      (Except.ok SymbolTable.new.ram_address,
        { table := ("70000", SymbolTable.new.ram_address) :: SymbolTable.new.table,
          ram_address := SymbolTable.new.ram_address + 1,
          rom_address := SymbolTable.new.rom_address }) ∧
    SymbolTable.new.ram_address ≠ digitsVal "70000".data :=
  C10_large_literal_as_variable SymbolTable.new "70000"
    (by decide) (by decide) (by decide) (by decide) (by decide)

/-- C6 (counterexample to the claim as stated): the claim's symbol
alphabet includes `:` (as the specification's data model does), but the
code's symbol regex class `[[:word:].$]` omits it, so for the classified
address instruction `@a:b` (whose symbol text `a:b` uses only the claimed
alphabet and does not start with a digit) `Parser::symbol` does not strip
the leading `@`: it returns the whole command text unchanged. -/
theorem C6_counterexample :
    setCommandType "@a:b" = Except.ok (Command.ACommand "@a:b") ∧
    Parser.symbol (Command.ACommand "@a:b") = Except.ok "@a:b" ∧
    "@a:b" ≠ "a:b" :=
  ⟨by decide, by decide, by decide⟩

/-- C6 (amended): for symbol names over the alphabet the code actually
implements — letters, digits, `_`, `.`, `$`, without `:` — symbol
extraction returns exactly the inner text: the text after the leading `@`
of an address instruction, or between the parentheses of a label
pseudo-instruction. -/
theorem C6_amended_symbol_extraction (s : String) (hne : s.data ≠ [])
    (hsym : s.data.all isSymChar = true) :
    Parser.symbol (Command.ACommand ("@" ++ s)) = Except.ok s ∧
    Parser.symbol (Command.LCommand ("(" ++ s ++ ")")) = Except.ok s := by
  constructor
  · show Except.ok (aSymbol ("@" ++ s)) = Except.ok s
    rw [aSymbol_at s hne hsym]
  · show Except.ok (lSymbol ("(" ++ s ++ ")")) = Except.ok s
    rw [lSymbol_paren s hne hsym]

/-- Witness for C6 (amended): the symbol `i_loop.$2`. -/
theorem C6_amended_witness :
    Parser.symbol (Command.ACommand ("@" ++ "i_loop.$2")) = Except.ok "i_loop.$2" ∧
    Parser.symbol (Command.LCommand ("(" ++ "i_loop.$2" ++ ")")) = Except.ok "i_loop.$2" :=
  C6_amended_symbol_extraction "i_loop.$2" (by decide) (by decide)

/-! ## Preservation of existing bindings

`SymbolTable::insert` adds a key only when it is absent, so every existing
binding survives every table operation of both passes. -/

/-- An insert never disturbs an existing binding. -/
theorem insert_preserves (t : SymbolTable) (s' L : String) (x' a : Nat)
    (h : t.get_address L = some a) :
    ((t.insert s' x').2).get_address L = some a := by
  unfold SymbolTable.insert
  by_cases hl : (t.table.lookup s').isSome = true
  · rw [if_pos hl]
    exact h
  · rw [if_neg hl]
    show ((s', x') :: t.table).lookup L = some a
    rw [List.lookup_cons]
    have hne : (L == s') = false := by
      cases hbeq : L == s' with
      | false => rfl
      | true =>
        exfalso
        have heq : L = s' := eq_of_beq hbeq
        rw [← heq] at hl
        have hL : t.table.lookup L = some a := h
        rw [hL] at hl
        exact hl rfl
    rw [hne]
    exact h

/-- Incrementing the RAM counter never touches the map. -/
theorem get_address_inc_ram (t : SymbolTable) (L : String) :
    ((t.inc_ram_address).2).get_address L = t.get_address L := by
  unfold SymbolTable.inc_ram_address
  split_ifs <;> rfl

/-- Translating an A-command never disturbs an existing binding. -/
theorem translate_a_preserves (t : SymbolTable) (cmd L : String) (a : Nat)
    (h : t.get_address L = some a) :
    ((runner.translate_a_cmd t cmd).2).get_address L = some a := by
  have hins : ∀ r t', t.insert_variable (aSymbol cmd) = (r, t') →
      t'.get_address L = some a := by
    intro r t' heq
    have h2 := insert_preserves t (aSymbol cmd) L t.ram_address a h
    rw [show t.insert (aSymbol cmd) t.ram_address = t.insert_variable (aSymbol cmd)
      from rfl, heq] at h2
    exact h2
  have hincr : ∀ (u : SymbolTable) r t'', u.get_address L = some a →
      u.inc_ram_address = (r, t'') → t''.get_address L = some a := by
    intro u r t'' hu heq
    have h3 := get_address_inc_ram u L
    rw [heq] at h3
    rw [h3]
    exact hu
  unfold runner.translate_a_cmd
  split
  · exact h
  · split
    · exact h
    · split
      · rename_i e t' heq
        exact hins _ _ heq
      · rename_i b t' heq
        split
        · rename_i e t'' heq2
          exact hincr t' _ _ (hins _ _ heq) heq2
        · rename_i u t'' heq2
          exact hincr t' _ _ (hins _ _ heq) heq2

/-- The first-pass step never disturbs an existing binding. -/
theorem process_l_preserves (t : SymbolTable) (oc : Option Command) (L : String) (a : Nat)
    (h : t.get_address L = some a) :
    ((runner.process_l_cmd t oc).2).get_address L = some a := by
  have hins : ∀ cmd r t', t.insert_label (lSymbol cmd) = (r, t') →
      t'.get_address L = some a := by
    intro cmd r t' heq
    have h2 := insert_preserves t (lSymbol cmd) L t.rom_address a h
    rw [show t.insert (lSymbol cmd) t.rom_address = t.insert_label (lSymbol cmd)
      from rfl, heq] at h2
    exact h2
  unfold runner.process_l_cmd
  split
  · rename_i cmd
    split
    · rename_i u t' heq
      exact hins _ _ _ heq
    · rename_i e t' heq
      exact hins _ _ _ heq
  · exact h
  · exact h

/-- The whole first pass never disturbs an existing binding, whether it
succeeds or aborts. -/
theorem first_pass_preserves (lines : List String) (t : SymbolTable) (L : String) (a : Nat)
    (h : t.get_address L = some a) :
    ((runner.first_pass t lines).2).get_address L = some a := by
  induction lines generalizing t with
  | nil => exact h
  | cons raw rest ih =>
    have hstep : ∀ oc r t', runner.process_l_cmd t oc = (r, t') →
        t'.get_address L = some a := by
      intro oc r t' heq
      have h2 := process_l_preserves t oc L a h
      rw [heq] at h2
      exact h2
    unfold runner.first_pass
    split
    · exact h
    · split
      · rename_i oc u t' heq
        exact ih t' (hstep _ _ _ heq)
      · rename_i oc e t' heq
        exact hstep _ _ _ heq

/-- The second-pass line step never disturbs an existing binding. -/
theorem translate_line_preserves (t : SymbolTable) (oc : Option Command) (L : String) (a : Nat)
    (h : t.get_address L = some a) :
    ((runner.translate_line t oc).2).get_address L = some a := by
  have hstep : ∀ cmd r t', runner.translate_a_cmd t cmd = (r, t') →
      t'.get_address L = some a := by
    intro cmd r t' heq
    have h2 := translate_a_preserves t cmd L a h
    rw [heq] at h2
    exact h2
  unfold runner.translate_line
  split
  · rename_i cmd
    split
    · rename_i b t' heq
      exact hstep _ _ _ heq
    · rename_i e t' heq
      exact hstep _ _ _ heq
  · rename_i cmd
    split
    · exact h
    · exact h
  · exact h

/-- The whole second pass never disturbs an existing binding, whether it
succeeds or aborts. -/
theorem second_pass_preserves (lines : List String) (t : SymbolTable) (L : String) (a : Nat)
    (h : t.get_address L = some a) :
    ((runner.second_pass t lines).2).get_address L = some a := by
  induction lines generalizing t with
  | nil => exact h
  | cons raw rest ih =>
    have hstep : ∀ oc r t', runner.translate_line t oc = (r, t') →
        t'.get_address L = some a := by
      intro oc r t' heq
      have h2 := translate_line_preserves t oc L a h
      rw [heq] at h2
      exact h2
    have hrest : ∀ (t' : SymbolTable) r t'', t'.get_address L = some a →
        runner.second_pass t' rest = (r, t'') → t''.get_address L = some a := by
      intro t' r t'' ht' heq
      have h2 := ih t' ht'
      rw [heq] at h2
      exact h2
    unfold runner.second_pass
    split
    · exact h
    · split
      · rename_i oc t' heq
        exact ih t' (hstep _ _ _ heq)
      · rename_i oc b t' heq
        split
        · rename_i out t'' heq2
          exact hrest t' _ _ (hstep _ _ _ heq) heq2
        · rename_i e t'' heq2
          exact hrest t' _ _ (hstep _ _ _ heq) heq2
      · rename_i oc e t' heq
        exact hstep _ _ _ heq

/-- C7: a symbol already bound in the table (predefined entries included)
can never be bound again: inserting it fails with `SymbolExists` and
leaves the table unchanged; inserting any other name preserves the
binding; and the binding survives a whole first pass and a whole second
pass untouched, so a name-to-address mapping never changes for the
remainder of a run. -/
theorem C7_symbol_table_no_rebind (t : SymbolTable) (s s' : String) (a x x' : Nat)
    (h : t.get_address s = some a) :
    t.insert s x = (Except.error ErrorKind.SymbolExists, t) ∧
    ((t.insert s' x').2).get_address s = some a ∧
    (∀ lines, ((runner.first_pass t lines).2).get_address s = some a) ∧
    (∀ lines, ((runner.second_pass t lines).2).get_address s = some a) := by
  refine ⟨?_, insert_preserves t s' s x' a h,
    fun lines => first_pass_preserves lines t s a h,
    fun lines => second_pass_preserves lines t s a h⟩
  unfold SymbolTable.insert
  rw [if_pos (by rw [show t.table.lookup s = some a from h]; rfl)]

/-- Witness for C7: the predefined register `R3` against a fresh table. -/
theorem C7_witness :
    SymbolTable.new.insert "R3" 7 = (Except.error ErrorKind.SymbolExists, SymbolTable.new) ∧
    ((SymbolTable.new.insert "x" 9).2).get_address "R3" = some 3 ∧
    (∀ lines,
      ((runner.first_pass SymbolTable.new lines).2).get_address "R3" = some 3) ∧
    (∀ lines,
      ((runner.second_pass SymbolTable.new lines).2).get_address "R3" = some 3) :=
  C7_symbol_table_no_rebind SymbolTable.new "R3" "x" 3 7 9 (by decide)

/-! ## Round trip between the encoder and the mnemonic tables -/

/-- Every `dest` mnemonic's table entry is a 3-bit pattern shifted by 3. -/
theorem dest_pattern_exists :
    ∀ d ∈ destMnemonics, ∃ p ∈ List.range 8,
      code_translator.dest d = Except.ok (p <<< 3) := by decide

/-- Every `comp` mnemonic's table entry is one of the 28 documented 7-bit
patterns shifted by 6. -/
theorem comp_pattern_exists :
    ∀ c ∈ compMnemonics, ∃ p ∈ compPatterns.map Prod.snd,
      code_translator.comp c = Except.ok (p <<< 6) := by decide

/-- Every `jump` mnemonic's table entry is a 3-bit pattern. -/
theorem jump_pattern_exists :
    ∀ j ∈ jumpMnemonics, ∃ p ∈ List.range 8,
      code_translator.jump j = Except.ok p := by decide

/-- The comp patterns are 7-bit values. -/
theorem comp_pattern_bound : ∀ p ∈ compPatterns.map Prod.snd, p < 128 := by decide

/-- The `dest` table is injective on its set: decoding a mnemonic's own
field value recovers that mnemonic. -/
theorem dest_decode_inj :
    ∀ d ∈ destMnemonics, ∀ p ∈ List.range 8,
      code_translator.dest d = Except.ok (p <<< 3) →
      decodeField code_translator.dest destMnemonics (p <<< 3) = some d := by decide

/-- The `comp` table is injective on its set. -/
theorem comp_decode_inj :
    ∀ c ∈ compMnemonics, ∀ p ∈ compPatterns.map Prod.snd,
      code_translator.comp c = Except.ok (p <<< 6) →
      decodeField code_translator.comp compMnemonics (p <<< 6) = some c := by decide

/-- The `jump` table is injective on its set. -/
theorem jump_decode_inj :
    ∀ j ∈ jumpMnemonics, ∀ p ∈ List.range 8,
      code_translator.jump j = Except.ok p →
      decodeField code_translator.jump jumpMnemonics p = some j := by decide

/-- C8: decoding the three subfields (bits 5-3, 12-6, 2-0) of any word the
compute-instruction encoder produces from valid mnemonics against the same
mnemonic tables reconstructs the original `dest`, `comp` and `jump`
mnemonics — the tables are injective on their enumerated sets. -/
theorem C8_roundtrip (d c j : String) (w : Nat)
    (hd : d ∈ destMnemonics) (hc : c ∈ compMnemonics) (hj : j ∈ jumpMnemonics)
    (hw : runner.translate_c_fields (some d) (some c) (some j) = Except.ok w) :
    decodeDest w = some d ∧ decodeComp w = some c ∧ decodeJump w = some j := by
  obtain ⟨dp, hdpm, hdv⟩ := dest_pattern_exists d hd
  obtain ⟨cp, hcpm, hcv⟩ := comp_pattern_exists c hc
  obtain ⟨jp, hjpm, hjv⟩ := jump_pattern_exists j hj
  have hdp8 : dp < 8 := List.mem_range.mp hdpm
  have hcp128 : cp < 128 := comp_pattern_bound cp hcpm
  have hjp8 : jp < 8 := List.mem_range.mp hjpm
  simp only [runner.translate_c_fields, runner.dest_field, runner.comp_field,
    runner.jump_field, hdv, hcv, hjv, Except.ok.injEq] at hw
  rw [Nat.shiftLeft_eq, Nat.shiftLeft_eq] at hw
  have hwd : w / 8 % 8 = dp := by omega
  have hwc : w / 64 % 128 = cp := by omega
  have hwj : w % 8 = jp := by omega
  refine ⟨?_, ?_, ?_⟩
  · rw [decodeDest, hwd]
    exact dest_decode_inj d hd dp hdpm hdv
  · rw [decodeComp, hwc]
    exact comp_decode_inj c hc cp hcpm hcv
  · rw [decodeJump, hwj]
    exact jump_decode_inj j hj jp hjpm hjv

/-- Witness for C8: the instruction `AM=D+A;JGT`. -/
theorem C8_witness :
    decodeDest 57513 = some "AM" ∧ decodeComp 57513 = some "D+A" ∧
    decodeJump 57513 = some "JGT" :=
  C8_roundtrip "AM" "D+A" "JGT" 57513 (by decide) (by decide) (by decide) (by decide)

/-! ## Inversion lemmas for classification and the pass steps -/

/-- A line classified as some command has nonempty cleaned content
classified by `set_command_type`. -/
theorem setCommand_ok_some (raw : String) (c : Command)
    (h : setCommand raw = Except.ok (some c)) :
    cleanLine raw ≠ "" ∧ setCommandType (cleanLine raw) = Except.ok c := by
  unfold setCommand at h
  split_ifs at h with he
  · injection h with h
    exact Option.noConfusion h
  · refine ⟨he, ?_⟩
    cases hst : setCommandType (cleanLine raw) with
    | error e =>
      rw [hst] at h
      simp [Except.map] at h
    | ok c' =>
      rw [hst] at h
      simp only [Except.map, Except.ok.injEq, Option.some.injEq] at h
      rw [h]

/-- Classification yields an L-command exactly for content matching the
label regex (verbatim content, `@`-lines and C-shapes excluded first). -/
theorem setCommandType_L (cmd cL : String)
    (h : setCommandType cmd = Except.ok (Command.LCommand cL)) :
    cL = cmd ∧ matchL cmd.data = true := by
  unfold setCommandType at h
  split_ifs at h with ha hc hl
  · injection h with h
    exact Command.noConfusion h
  · injection h with h
    exact Command.noConfusion h
  · injection h with h
    injection h with h
    exact ⟨h.symm, hl⟩

/-- Classification yields an A-command exactly for content whose first
character is `@`, carried verbatim. -/
theorem setCommandType_A (cmd cA : String)
    (h : setCommandType cmd = Except.ok (Command.ACommand cA)) :
    cA = cmd ∧ cmd.data.head? = some '@' := by
  unfold setCommandType at h
  split_ifs at h with ha hc hl
  · injection h with h
    injection h with h
    exact ⟨h.symm, ha⟩
  · injection h with h
    exact Command.noConfusion h
  · injection h with h
    exact Command.noConfusion h

/-- Inversion of `breakAt`: a successful split reassembles the input. -/
theorem breakAt_eq (sep : Char) (l : List Char) :
    ∀ a b, breakAt sep l = some (a, b) → l = a ++ sep :: b := by
  induction l with
  | nil => intro a b h; exact Option.noConfusion h
  | cons c rest ih =>
    intro a b h
    unfold breakAt at h
    split_ifs at h with hc
    · injection h with h
      injection h with h1 h2
      subst h1
      subst h2
      subst hc
      rfl
    · split at h
      · rename_i a' b' heq
        injection h with h
        injection h with h1 h2
        subst h1
        subst h2
        rw [ih a' b' heq]
        rfl
      · exact Option.noConfusion h

/-- The symbol of a label command matching the label regex is a nonempty
string of symbol-class characters. -/
theorem lSymbol_spec (cmd : String) (h : matchL cmd.data = true) :
    (lSymbol cmd).data ≠ [] ∧ (lSymbol cmd).data.all isSymChar = true := by
  unfold matchL at h
  split_ifs at h with hh
  · split at h
    · rename_i mid after heq
      unfold lSymbol
      rw [if_pos hh, heq]
      show (if (!mid.isEmpty && mid.all isSymChar && after.isEmpty) = true then
          String.mk mid else cmd).data ≠ [] ∧
        (if (!mid.isEmpty && mid.all isSymChar && after.isEmpty) = true then
          String.mk mid else cmd).data.all isSymChar = true
      rw [if_pos h]
      have h' := h
      simp only [Bool.and_eq_true, Bool.not_eq_true'] at h'
      refine ⟨?_, h'.1.2⟩
      intro he
      rw [show (String.mk mid).data = mid from rfl] at he
      rw [he] at h'
      simp at h'
    · exact Bool.noConfusion h

/-- A successful first-pass step on a label line has inserted the label
symbol at the current ROM address, leaving the counters unchanged. -/
theorem process_l_L_spec (t : SymbolTable) (cmd : String) (u : Nat) (t' : SymbolTable)
    (h : runner.process_l_cmd t (some (Command.LCommand cmd)) = (Except.ok u, t')) :
    t'.rom_address = t.rom_address ∧
    t'.get_address (lSymbol cmd) = some t.rom_address ∧
    (∀ L a, t.get_address L = some a → t'.get_address L = some a) := by
  simp only [runner.process_l_cmd] at h
  split at h
  · rename_i a t'2 heq
    injection h with h1 h2
    subst h2
    unfold SymbolTable.insert_label SymbolTable.insert at heq
    split_ifs at heq with hl
    · exact absurd (congrArg Prod.fst heq) (by simp)
    · injection heq with e1 e2
      subst e2
      refine ⟨rfl, ?_, ?_⟩
      · show ((lSymbol cmd, t.rom_address) :: t.table).lookup (lSymbol cmd) =
          some t.rom_address
        simp [List.lookup_cons]
      · intro L a2 hL
        have := insert_preserves t (lSymbol cmd) L t.rom_address a2 hL
        unfold SymbolTable.insert at this
        rw [if_neg hl] at this
        exact this
  · rename_i e t'2 heq
    exact absurd (congrArg Prod.fst h) (by simp)

/-- A first-pass step on an A-command line only advances the ROM
counter. -/
theorem process_l_A_spec (t : SymbolTable) (cmd : String) (r : Except ErrorKind Nat)
    (t' : SymbolTable)
    (h : runner.process_l_cmd t (some (Command.ACommand cmd)) = (r, t')) :
    t' = t.inc_rom_address := by
  unfold runner.process_l_cmd at h
  injection h with h1 h2
  exact h2.symm

/-- A first-pass step on a C-command line only advances the ROM
counter. -/
theorem process_l_C_spec (t : SymbolTable) (cmd : String) (r : Except ErrorKind Nat)
    (t' : SymbolTable)
    (h : runner.process_l_cmd t (some (Command.CCommand cmd)) = (r, t')) :
    t' = t.inc_rom_address := by
  unfold runner.process_l_cmd at h
  injection h with h1 h2
  exact h2.symm

/-- A first-pass step on a non-command line changes nothing. -/
theorem process_l_none_spec (t : SymbolTable) (r : Except ErrorKind Nat)
    (t' : SymbolTable)
    (h : runner.process_l_cmd t none = (r, t')) : t' = t := by
  unfold runner.process_l_cmd at h
  injection h with h1 h2
  exact h2.symm

/-- Instruction addresses start at zero. -/
theorem instrAddr_zero (lines : List String) : instrAddr lines 0 = 0 := by
  simp [instrAddr]

/-- One line advances the instruction address exactly when it is an
address/compute instruction line. -/
theorem instrAddr_cons (x : String) (xs : List String) (n : Nat) :
    instrAddr (x :: xs) (n + 1) =
      (if isInstrLine x then 1 else 0) + instrAddr xs n := by
  simp only [instrAddr, List.take_succ_cons, List.filter_cons]
  split <;> simp [Nat.add_comm]

/-- A successful second-pass step that emits no word is a label or blank
line and leaves the table untouched. -/
theorem translate_line_none_spec (t : SymbolTable) (oc : Option Command)
    (t' : SymbolTable)
    (h : runner.translate_line t oc = (Except.ok none, t')) :
    t' = t ∧ (∀ cmd, oc ≠ some (Command.ACommand cmd)) ∧
      (∀ cmd, oc ≠ some (Command.CCommand cmd)) := by
  unfold runner.translate_line at h
  split at h
  · rename_i cmd
    split at h
    · injection h with h1 h2
      exact absurd h1 (by simp)
    · exact absurd (congrArg Prod.fst h) (by simp)
  · rename_i cmd
    split at h
    · injection h with h1 h2
      exact absurd h1 (by simp)
    · exact absurd (congrArg Prod.fst h) (by simp)
  · rename_i hne1 hne2
    injection h with h1 h2
    subst h2
    refine ⟨rfl, ?_, ?_⟩
    · intro cmd he
      subst he
      exact hne1 cmd rfl
    · intro cmd he
      subst he
      exact hne2 cmd rfl

/-- A successful second-pass step on an A-command line emits exactly the
word produced by `translate_a_cmd`. -/
theorem translate_line_A_spec (t : SymbolTable) (cmd : String) (r : Option Nat)
    (t' : SymbolTable)
    (h : runner.translate_line t (some (Command.ACommand cmd)) = (Except.ok r, t')) :
    ∃ b, r = some b ∧ runner.translate_a_cmd t cmd = (Except.ok b, t') := by
  simp only [runner.translate_line] at h
  split at h
  · rename_i b t'2 heq
    injection h with h1 h2
    subst h2
    injection h1 with h1
    exact ⟨b, h1.symm, heq⟩
  · exact absurd (congrArg Prod.fst h) (by simp)

/-- A successful second-pass step that emits a word is an A- or C-command
line. -/
theorem translate_line_some_spec (t : SymbolTable) (oc : Option Command) (b : Nat)
    (t' : SymbolTable)
    (h : runner.translate_line t oc = (Except.ok (some b), t')) :
    (∃ cmd, oc = some (Command.ACommand cmd)) ∨
    (∃ cmd, oc = some (Command.CCommand cmd)) := by
  unfold runner.translate_line at h
  split at h
  · rename_i cmd
    exact Or.inl ⟨cmd, rfl⟩
  · rename_i cmd
    exact Or.inr ⟨cmd, rfl⟩
  · exact absurd (congrArg Prod.fst h) (by simp)

/-- After a successful first pass started at ROM counter below 2^16, every
label line's symbol is bound to the label's instruction address: the
running counter at the time the label line was processed. -/
theorem first_pass_label (lines : List String) :
    ∀ (t : SymbolTable) (i : Nat) (rawL cL : String) (u : Nat) (t1 : SymbolTable),
    runner.first_pass t lines = (Except.ok u, t1) →
    t.rom_address < 65536 →
    lines.get? i = some rawL →
    setCommand rawL = Except.ok (some (Command.LCommand cL)) →
    t1.get_address (lSymbol cL) =
      some ((t.rom_address + instrAddr lines i) % 65536) := by
  induction lines with
  | nil =>
    intro t i rawL cL u t1 hfp hrom hiL hLc
    exact absurd hiL (by simp)
  | cons raw rest ih =>
    intro t i rawL cL u t1 hfp hrom hiL hLc
    unfold runner.first_pass at hfp
    split at hfp
    · exact absurd (congrArg Prod.fst hfp) (by simp)
    · rename_i oc heq1
      split at hfp
      · rename_i u' t' heq2
        cases i with
        | zero =>
          rw [List.get?_cons_zero] at hiL
          injection hiL with hiL
          subst hiL
          rw [hLc] at heq1
          injection heq1 with heq1
          subst heq1
          obtain ⟨hr, hb, hpres⟩ := process_l_L_spec t cL u' t' heq2
          rw [instrAddr_zero]
          have hmod : (t.rom_address + 0) % 65536 = t.rom_address := by omega
          rw [hmod]
          have hkeep := first_pass_preserves rest t' (lSymbol cL) t.rom_address hb
          rw [hfp] at hkeep
          exact hkeep
        | succ j =>
          rw [List.get?_cons_succ] at hiL
          rw [instrAddr_cons]
          cases oc with
          | none =>
            have ht' := process_l_none_spec t _ _ heq2
            rw [ht'] at hfp
            have hfalse : isInstrLine raw = false := by
              unfold isInstrLine
              rw [heq1]
            have hzero : (if isInstrLine raw then 1 else 0) = 0 := by rw [hfalse]; rfl
            rw [hzero, Nat.zero_add]
            exact ih t j rawL cL u t1 hfp hrom hiL hLc
          | some c =>
            cases c with
            | LCommand c' =>
              obtain ⟨hr, _, _⟩ := process_l_L_spec t c' u' t' heq2
              have hfalse : isInstrLine raw = false := by
                unfold isInstrLine
                rw [heq1]
              have hzero : (if isInstrLine raw then 1 else 0) = 0 := by rw [hfalse]; rfl
              rw [hzero, Nat.zero_add]
              have h2 := ih t' j rawL cL u t1 hfp (by rw [hr]; exact hrom) hiL hLc
              rw [h2, hr]
            | ACommand c' =>
              have ht' := process_l_A_spec t c' _ _ heq2
              subst ht'
              have htrue : isInstrLine raw = true := by
                unfold isInstrLine
                rw [heq1]
              have hone : (if isInstrLine raw then 1 else 0) = 1 := by rw [htrue]; rfl
              rw [hone]
              have hrom' : (t.inc_rom_address).rom_address < 65536 := by
                show (t.rom_address + 1) % 65536 < 65536
                omega
              have h2 := ih t.inc_rom_address j rawL cL u t1 hfp hrom' hiL hLc
              rw [h2]
              congr 1
              show ((t.rom_address + 1) % 65536 + instrAddr rest j) % 65536 =
                (t.rom_address + (1 + instrAddr rest j)) % 65536
              omega
            | CCommand c' =>
              have ht' := process_l_C_spec t c' _ _ heq2
              subst ht'
              have htrue : isInstrLine raw = true := by
                unfold isInstrLine
                rw [heq1]
              have hone : (if isInstrLine raw then 1 else 0) = 1 := by rw [htrue]; rfl
              rw [hone]
              have hrom' : (t.inc_rom_address).rom_address < 65536 := by
                show (t.rom_address + 1) % 65536 < 65536
                omega
              have h2 := ih t.inc_rom_address j rawL cL u t1 hfp hrom' hiL hLc
              rw [h2]
              congr 1
              show ((t.rom_address + 1) % 65536 + instrAddr rest j) % 65536 =
                (t.rom_address + (1 + instrAddr rest j)) % 65536
              omega
      · rename_i u' t' heq2
        exact absurd (congrArg Prod.fst hfp) (by simp)

/-- During a successful second pass, an A-command line whose symbol is
bound in the running table emits the bound address, at output position
equal to its instruction address. -/
theorem second_pass_ref (lines : List String) :
    ∀ (t : SymbolTable) (j : Nat) (rawA cA L : String) (a : Nat) (out : List Nat)
      (t2 : SymbolTable),
    runner.second_pass t lines = (Except.ok out, t2) →
    lines.get? j = some rawA →
    setCommand rawA = Except.ok (some (Command.ACommand cA)) →
    aSymbol cA = L →
    parseU16 L = none →
    t.get_address L = some a →
    out.get? (instrAddr lines j) = some a := by
  induction lines with
  | nil =>
    intro t j rawA cA L a out t2 hsp hjA hAc hAs hparse hbind
    exact absurd hjA (by simp)
  | cons raw rest ih =>
    intro t j rawA cA L a out t2 hsp hjA hAc hAs hparse hbind
    unfold runner.second_pass at hsp
    split at hsp
    · exact absurd (congrArg Prod.fst hsp) (by simp)
    · rename_i oc heq1
      split at hsp
      · rename_i t' heq2
        obtain ⟨ht', hnotA, hnotC⟩ := translate_line_none_spec t oc t' heq2
        rw [ht'] at hsp
        cases j with
        | zero =>
          rw [List.get?_cons_zero] at hjA
          injection hjA with hjA
          subst hjA
          rw [hAc] at heq1
          injection heq1 with heq1
          exact absurd heq1.symm (hnotA cA)
        | succ j' =>
          rw [List.get?_cons_succ] at hjA
          rw [instrAddr_cons]
          have hfalse : isInstrLine raw = false := by
            unfold isInstrLine
            rw [heq1]
            cases oc with
            | none => rfl
            | some c =>
              cases c with
              | ACommand cmd => exact absurd rfl (hnotA cmd)
              | CCommand cmd => exact absurd rfl (hnotC cmd)
              | LCommand cmd => rfl
          have hzero : (if isInstrLine raw then 1 else 0) = 0 := by rw [hfalse]; rfl
          rw [hzero, Nat.zero_add]
          exact ih t j' rawA cA L a out t2 hsp hjA hAc hAs hparse hbind
      · rename_i b t' heq2
        split at hsp
        · rename_i out' t'' heq3
          injection hsp with h1 h2
          subst h2
          injection h1 with h1
          subst h1
          cases j with
          | zero =>
            rw [List.get?_cons_zero] at hjA
            injection hjA with hjA
            subst hjA
            rw [hAc] at heq1
            injection heq1 with heq1
            subst heq1
            obtain ⟨b2, hb2, hta⟩ := translate_line_A_spec t cA (some b) t' heq2
            have hcomp : runner.translate_a_cmd t cA = (Except.ok a, t) := by
              unfold runner.translate_a_cmd
              rw [hAs, hparse, hbind]
            rw [hcomp] at hta
            injection hta with hx hy
            injection hx with hx
            injection hb2 with hb2
            rw [instrAddr_zero, List.get?_cons_zero, hb2, ← hx]
          | succ j' =>
            rw [List.get?_cons_succ] at hjA
            rw [instrAddr_cons]
            have htrue : isInstrLine raw = true := by
              unfold isInstrLine
              rw [heq1]
              rcases translate_line_some_spec t oc b t' heq2 with ⟨cmd, hc⟩ | ⟨cmd, hc⟩ <;>
                rw [hc]
            have hone : (if isInstrLine raw then 1 else 0) = 1 := by rw [htrue]; rfl
            rw [hone, Nat.add_comm 1 (instrAddr rest j'), List.get?_cons_succ]
            have hb' : t'.get_address L = some a := by
              have hkeep := translate_line_preserves t oc L a hbind
              rw [heq2] at hkeep
              exact hkeep
            exact ih t' j' rawA cA L a out' t'' heq3 hjA hAc hAs hparse hb'
        · exact absurd (congrArg Prod.fst hsp) (by simp)
      · exact absurd (congrArg Prod.fst hsp) (by simp)

/-- C3: in a program translated by a successful two-pass run, a symbol
defined by a label pseudo-instruction and referenced by an address
instruction anywhere in the program (before or after the definition,
symbol names not starting with a digit) resolves to the label's
instruction address — the 0-based count of address/compute instruction
lines preceding the label line, label lines not advancing the counter —
and never to a freshly allocated variable address: the emitted word for
the referencing line equals exactly that count.  (The instruction counter
is a `u16`; the hypothesis that the program has fewer than 2^16
instructions keeps it from wrapping.) -/
theorem C3_label_resolution (lines : List String) (i j : Nat)
    (rawL rawA cL cA : String) (u : Nat) (t1 : SymbolTable)
    (out : List Nat) (t2 : SymbolTable)
    (hcount : (lines.filter isInstrLine).length < 65536)
    (h1 : runner.first_pass SymbolTable.new lines = (Except.ok u, t1))
    (h2 : runner.second_pass t1 lines = (Except.ok out, t2))
    (hiL : lines.get? i = some rawL)
    (hLc : setCommand rawL = Except.ok (some (Command.LCommand cL)))
    (hjA : lines.get? j = some rawA)
    (hAc : setCommand rawA = Except.ok (some (Command.ACommand cA)))
    (hAs : aSymbol cA = lSymbol cL)
    (hdig : ∀ ch : Char, (lSymbol cL).data.head? = some ch → ch.isDigit = false) :
    out.get? (instrAddr lines j) = some (instrAddr lines i) := by
  have hlab := first_pass_label lines SymbolTable.new i rawL cL u t1 h1
    (by decide) hiL hLc
  have hle : instrAddr lines i ≤ (lines.filter isInstrLine).length := by
    have hpref : (lines.take i).filter isInstrLine <+: lines.filter isInstrLine :=
      (List.take_prefix i lines).filter _
    exact hpref.length_le
  have haddr : (SymbolTable.new.rom_address + instrAddr lines i) % 65536 =
      instrAddr lines i := by
    show (0 + instrAddr lines i) % 65536 = instrAddr lines i
    omega
  rw [haddr] at hlab
  have hmL : matchL cL.data = true := by
    obtain ⟨hne, hty⟩ := setCommand_ok_some rawL (Command.LCommand cL) hLc
    obtain ⟨hcl, hm⟩ := setCommandType_L (cleanLine rawL) cL hty
    rw [hcl]
    exact hm
  obtain ⟨hneL, hsymL⟩ := lSymbol_spec cL hmL
  have hparse : parseU16 (lSymbol cL) = none := by
    cases hd : (lSymbol cL).data with
    | nil => exact absurd hd hneL
    | cons ch rest =>
      have hch : isSymChar ch = true :=
        List.all_eq_true.mp hsymL ch (by rw [hd]; simp)
      have hchd : ch.isDigit = false := hdig ch (by rw [hd]; rfl)
      have hplus : ch ≠ '+' := by
        intro he
        rw [he] at hch
        exact absurd hch (by decide)
      exact parseU16_none_head (lSymbol cL) ch rest hd hplus hchd
  exact second_pass_ref lines t1 j rawA cA (lSymbol cL) (instrAddr lines i) out t2
    h2 hjA hAc hAs hparse hlab

/-- Witness for C3: the program `@LOOP / D=A / (LOOP) / 0;JMP`, whose
forward reference `@LOOP` resolves to instruction address 2. -/
theorem C3_witness :
    List.get? [2, 60432, 60039] (instrAddr ["@LOOP", "D=A", "(LOOP)", "0;JMP"] 0) =
      some (instrAddr ["@LOOP", "D=A", "(LOOP)", "0;JMP"] 2) :=
  C3_label_resolution ["@LOOP", "D=A", "(LOOP)", "0;JMP"] 2 0 "(LOOP)" "@LOOP"
    "(LOOP)" "@LOOP" 0
    { table := ("LOOP", 2) :: SymbolTable.new.table, ram_address := 16, rom_address := 3 }
    [2, 60432, 60039]
    { table := ("LOOP", 2) :: SymbolTable.new.table, ram_address := 16, rom_address := 3 }
    (by decide) (by decide) (by decide) (by decide) (by decide) (by decide)
    (by decide) (by decide)
    (by
      intro ch h
      rw [show (lSymbol "(LOOP)").data.head? = some 'L' from by decide] at h
      injection h with h
      rw [← h]
      decide)

/-! ## Variable allocation and RAM-address exhaustion -/

/-- Looking a key up just past a differently-named head binding. -/
theorem lookup_cons_ne (s s' : String) (v : Nat) (tab : List (String × Nat))
    (h : s ≠ s') : ((s', v) :: tab).lookup s = tab.lookup s := by
  rw [List.lookup_cons, beq_eq_false_iff_ne.mpr h]

/-- Looking up the head binding. -/
theorem lookup_cons_self (s : String) (v : Nat) (tab : List (String × Nat)) :
    ((s, v) :: tab).lookup s = some v := by
  rw [List.lookup_cons, beq_self_eq_true]

/-- A key different from every key of an association list is absent. -/
theorem lookup_none_of_ne (key : String) (l : List (String × Nat))
    (h : ∀ p ∈ l, key ≠ p.1) : l.lookup key = none := by
  induction l with
  | nil => rfl
  | cons p rest ihl =>
    obtain ⟨pk, pv⟩ := p
    rw [lookup_cons_ne key pk pv rest (h (pk, pv) (by simp))]
    exact ihl (fun q hq => h q (by simp [hq]))

/-- Translating `@s` for a fresh symbol `s` (RAM counter not at its cap)
allocates the next free RAM address, inserts the binding and advances the
counter. -/
theorem translate_a_new_var (t : SymbolTable) (s : String)
    (hsa : aSymbol ("@" ++ s) = s) (hp : parseU16 s = none)
    (habs : t.get_address s = none) (hram : t.ram_address ≠ 16383) :
    runner.translate_a_cmd t ("@" ++ s) =
      (Except.ok t.ram_address,
        { table := (s, t.ram_address) :: t.table,
          ram_address := t.ram_address + 1,
          rom_address := t.rom_address }) := by
  have habs' : t.table.lookup s = none := habs
  have hins : t.insert_variable s =
      (Except.ok t.ram_address, { t with table := (s, t.ram_address) :: t.table }) := by
    unfold SymbolTable.insert_variable SymbolTable.insert
    rw [if_neg (by rw [habs']; simp)]
  have hinc : ({ t with table := (s, t.ram_address) :: t.table } : SymbolTable).inc_ram_address =
      (Except.ok 0,
        { table := (s, t.ram_address) :: t.table,
          ram_address := t.ram_address + 1,
          rom_address := t.rom_address }) := by
    show (if t.ram_address = 16383 then _ else _) = _
    rw [if_neg hram]
  simp only [runner.translate_a_cmd, hsa, hp, habs, hins, hinc]

/-- Translating `@s` for a fresh symbol `s` when the RAM counter is at its
cap 16383: the insertion itself succeeds (mutating the table at address
16383) but the following counter increment fails with `RAMFull`, aborting
the command with the insertion still in place. -/
theorem translate_a_new_var_full (t : SymbolTable) (s : String)
    (hsa : aSymbol ("@" ++ s) = s) (hp : parseU16 s = none)
    (habs : t.get_address s = none) (hram : t.ram_address = 16383) :
    runner.translate_a_cmd t ("@" ++ s) =
      (Except.error ErrorKind.RAMFull,
        { table := (s, t.ram_address) :: t.table,
          ram_address := t.ram_address,
          rom_address := t.rom_address }) := by
  have habs' : t.table.lookup s = none := habs
  have hins : t.insert_variable s =
      (Except.ok t.ram_address, { t with table := (s, t.ram_address) :: t.table }) := by
    unfold SymbolTable.insert_variable SymbolTable.insert
    rw [if_neg (by rw [habs']; simp)]
  have hinc : ({ t with table := (s, t.ram_address) :: t.table } : SymbolTable).inc_ram_address =
      (Except.error ErrorKind.RAMFull,
        { table := (s, t.ram_address) :: t.table,
          ram_address := t.ram_address,
          rom_address := t.rom_address }) := by
    show (if t.ram_address = 16383 then _ else _) = _
    rw [if_pos hram]
  simp only [runner.translate_a_cmd, hsa, hp, habs, hins, hinc]

/-- The fresh variable names extract verbatim from their `@` commands. -/
theorem varName_aSymbol (k : Nat) : aSymbol ("@" ++ varName k) = varName k := by
  apply aSymbol_at
  · show List.replicate (k + 1) 'a' ≠ []
    intro h
    have := congrArg List.length h
    simp at this
  · show (List.replicate (k + 1) 'a').all isSymChar = true
    rw [List.all_eq_true]
    intro c hc
    rw [List.eq_of_mem_replicate hc]
    decide

/-- The fresh variable names never parse as `u16` literals. -/
theorem varName_parse (k : Nat) : parseU16 (varName k) = none :=
  parseU16_none_head (varName k) 'a' (List.replicate k 'a') rfl (by decide) (by decide)

/-- Distinct indices give distinct fresh variable names. -/
theorem varName_ne_of_ne {i j : Nat} (h : i ≠ j) : varName i ≠ varName j := by
  intro he
  apply h
  have hlen := congrArg (fun s : String => s.data.length) he
  simp only [varName, List.length_replicate] at hlen
  omega

/-- No fresh variable name is predefined in a new symbol table. -/
theorem new_fresh (m : Nat) : SymbolTable.new.get_address (varName m) = none := by
  have hne : ∀ s : String, s.data.head? ≠ some 'a' → varName m ≠ s := by
    intro s hs he
    apply hs
    rw [← he]
    rfl
  show List.lookup (varName m) SymbolTable.new.table = none
  apply lookup_none_of_ne
  intro p hp
  fin_cases hp <;> exact hne _ (by decide)

/-- A run of `n` allocations from a state whose RAM counter has room for
all of them succeeds, allocating consecutive addresses in
first-encountered order and preserving existing bindings. -/
theorem allocAux_ok (n : Nat) : ∀ (k : Nat) (t : SymbolTable),
    (∀ m, t.get_address (varName (k + m)) = none) →
    t.ram_address + n ≤ 16383 →
    ∃ t', allocAux t k n = (Except.ok 0, t') ∧
      t'.ram_address = t.ram_address + n ∧
      (∀ m, t'.get_address (varName (k + n + m)) = none) ∧
      (∀ L a, t.get_address L = some a → t'.get_address L = some a) ∧
      (∀ i, i < n → t'.get_address (varName (k + i)) = some (t.ram_address + i)) := by
  induction n with
  | zero =>
    intro k t hfresh hram
    refine ⟨t, rfl, by omega, ?_, fun L a h => h, fun i hi => absurd hi (by omega)⟩
    intro m
    have := hfresh m
    rw [show k + 0 + m = k + m from by omega]
    exact this
  | succ n ihn =>
    intro k t hfresh hram
    have habs : t.get_address (varName k) = none := by
      have := hfresh 0
      rw [Nat.add_zero] at this
      exact this
    have hstep := translate_a_new_var t (varName k) (varName_aSymbol k)
      (varName_parse k) habs (by omega)
    have hT1fresh : ∀ m,
        (({ table := (varName k, t.ram_address) :: t.table,
            ram_address := t.ram_address + 1,
            rom_address := t.rom_address } : SymbolTable)).get_address
          (varName (k + 1 + m)) = none := by
      intro m
      show ((varName k, t.ram_address) :: t.table).lookup (varName (k + 1 + m)) = none
      rw [lookup_cons_ne _ _ _ _ (varName_ne_of_ne (by omega))]
      have := hfresh (1 + m)
      rw [show k + (1 + m) = k + 1 + m from by omega] at this
      exact this
    obtain ⟨t', hrun, hram2, hfresh2, hpres2, hbound2⟩ :=
      ihn (k + 1)
        { table := (varName k, t.ram_address) :: t.table,
          ram_address := t.ram_address + 1,
          rom_address := t.rom_address }
        hT1fresh (by simp; omega)
    refine ⟨t', ?_, by rw [hram2]; simp; omega, ?_, ?_, ?_⟩
    · show (match runner.translate_a_cmd t ("@" ++ varName k) with
        | (Except.ok _, t') => allocAux t' (k + 1) n
        | (Except.error e, t') => (Except.error e, t')) = (Except.ok 0, t')
      rw [hstep]
      exact hrun
    · intro m
      have := hfresh2 m
      rw [show k + 1 + n + m = k + (n + 1) + m from by omega] at this
      exact this
    · intro L a hL
      apply hpres2
      show ((varName k, t.ram_address) :: t.table).lookup L = some a
      have hLne : L ≠ varName k := by
        intro he
        rw [he] at hL
        rw [habs] at hL
        exact Option.noConfusion hL
      rw [lookup_cons_ne _ _ _ _ hLne]
      exact hL
    · intro i hi
      cases i with
      | zero =>
        have := hpres2 (varName k) t.ram_address
          (show ((varName k, t.ram_address) :: t.table).lookup (varName k) =
            some t.ram_address from lookup_cons_self _ _ _)
        rw [Nat.add_zero, Nat.add_zero]
        exact this
      | succ i' =>
        have := hbound2 i' (by omega)
        rw [show k + 1 + i' = k + (i' + 1) from by omega] at this
        simp only [show t.ram_address + 1 + i' = t.ram_address + (i' + 1) from by omega]
          at this
        exact this

/-- A run of `n + 1` allocations from a state whose RAM counter reaches
the cap at the last allocation fails with `RAMFull`, the failing
allocation leaving its variable inserted at address 16383. -/
theorem allocAux_fail (n : Nat) : ∀ (k : Nat) (t : SymbolTable),
    (∀ m, t.get_address (varName (k + m)) = none) →
    t.ram_address + n = 16383 →
    ∃ tf, allocAux t k (n + 1) = (Except.error ErrorKind.RAMFull, tf) ∧
      tf.get_address (varName (k + n)) = some 16383 := by
  induction n with
  | zero =>
    intro k t hfresh hram
    rw [Nat.add_zero] at hram
    have habs : t.get_address (varName k) = none := by
      have := hfresh 0
      rw [Nat.add_zero] at this
      exact this
    have hstep := translate_a_new_var_full t (varName k) (varName_aSymbol k)
      (varName_parse k) habs hram
    refine ⟨{ table := (varName k, t.ram_address) :: t.table,
              ram_address := t.ram_address,
              rom_address := t.rom_address }, ?_, ?_⟩
    · show (match runner.translate_a_cmd t ("@" ++ varName k) with
        | (Except.ok _, t') => allocAux t' (k + 1) 0
        | (Except.error e, t') => (Except.error e, t')) = _
      rw [hstep]
    · rw [Nat.add_zero]
      show ((varName k, t.ram_address) :: t.table).lookup (varName k) = some 16383
      rw [lookup_cons_self, hram]
  | succ n ihn =>
    intro k t hfresh hram
    have habs : t.get_address (varName k) = none := by
      have := hfresh 0
      rw [Nat.add_zero] at this
      exact this
    have hstep := translate_a_new_var t (varName k) (varName_aSymbol k)
      (varName_parse k) habs (by omega)
    have hT1fresh : ∀ m,
        (({ table := (varName k, t.ram_address) :: t.table,
            ram_address := t.ram_address + 1,
            rom_address := t.rom_address } : SymbolTable)).get_address
          (varName (k + 1 + m)) = none := by
      intro m
      show ((varName k, t.ram_address) :: t.table).lookup (varName (k + 1 + m)) = none
      rw [lookup_cons_ne _ _ _ _ (varName_ne_of_ne (by omega))]
      have := hfresh (1 + m)
      rw [show k + (1 + m) = k + 1 + m from by omega] at this
      exact this
    obtain ⟨tf, hrun, hbind⟩ :=
      ihn (k + 1)
        { table := (varName k, t.ram_address) :: t.table,
          ram_address := t.ram_address + 1,
          rom_address := t.rom_address }
        hT1fresh (by simp; omega)
    refine ⟨tf, ?_, ?_⟩
    · show (match runner.translate_a_cmd t ("@" ++ varName k) with
        | (Except.ok _, t') => allocAux t' (k + 1) (n + 1)
        | (Except.error e, t') => (Except.error e, t')) =
        (Except.error ErrorKind.RAMFull, tf)
      rw [hstep]
      exact hrun
    · rw [show k + (n + 1) = k + 1 + n from by omega]
      exact hbind

/-- C4 (counterexample to the claim as stated): the claim says every one
of the first 16,383 new-variable allocations succeeds and that a failing
allocation leaves the table unchanged.  In fact a run of 16,368
allocations (16,368 ≤ 16,383) already fails with `RAMFull` (the spec's
AddressSpaceExhausted), because `inc_ram_address` is called after the
insertion and refuses to move past 16383 — and the failing allocation has
already inserted its variable at address 16383, so the table is changed. -/
theorem C4_counterexample :
    (∃ tf, allocRun 16368 = (Except.error ErrorKind.RAMFull, tf) ∧
      tf.get_address (varName 16367) = some 16383) ∧
    16368 ≤ 16383 := by
  have hfresh : ∀ m, SymbolTable.new.get_address (varName (0 + m)) = none := by
    intro m
    rw [Nat.zero_add]
    exact new_fresh m
  obtain ⟨tf, hrunf, hbindf⟩ := allocAux_fail 16367 0 SymbolTable.new hfresh (by decide)
  rw [Nat.zero_add] at hbindf
  have hR : allocRun 16368 = allocAux SymbolTable.new 0 (16367 + 1) := rfl
  refine ⟨⟨tf, ?_, hbindf⟩, by omega⟩
  rw [hR, hrunf]

/-- C4 (amended): every one of the first 16,367 new-variable allocations
of a run succeeds, one address per new variable from 16 upward (16
through 16382); the 16,368th allocation fails the run with `RAMFull`
(AddressSpaceExhausted), raised by the counter increment that follows the
insertion, and it leaves the just-inserted variable bound to address
16383 in the table. -/
theorem C4_amended_variable_exhaustion (n : Nat) (hn : n ≤ 16367) :
    (∃ t, allocRun n = (Except.ok 0, t) ∧ t.ram_address = 16 + n ∧
      ∀ i, i < n → t.get_address (varName i) = some (16 + i)) ∧
    (allocRun 16368).1 = Except.error ErrorKind.RAMFull ∧
    (allocRun 16368).2.get_address (varName 16367) = some 16383 := by
  have hfresh : ∀ m, SymbolTable.new.get_address (varName (0 + m)) = none := by
    intro m
    rw [Nat.zero_add]
    exact new_fresh m
  obtain ⟨tf, hrunf, hbindf⟩ := allocAux_fail 16367 0 SymbolTable.new hfresh (by decide)
  rw [Nat.zero_add] at hbindf
  have hR : allocRun 16368 = allocAux SymbolTable.new 0 (16367 + 1) := rfl
  refine ⟨?_, ?_, ?_⟩
  · obtain ⟨t, hrun, hram, _, _, hbound⟩ :=
      allocAux_ok n 0 SymbolTable.new hfresh (by show 16 + n ≤ 16383; omega)
    refine ⟨t, hrun, hram, ?_⟩
    intro i hi
    have := hbound i hi
    rw [Nat.zero_add] at this
    exact this
  · rw [hR, hrunf]
  · rw [hR, hrunf]
    exact hbindf

/-- Witness for C4 (amended): a run of three allocations binds the three
names to 16, 17, 18, while the 16,368-allocation run exhausts the address
space. -/
theorem C4_amended_witness :
    (∃ t, allocRun 3 = (Except.ok 0, t) ∧ t.ram_address = 16 + 3 ∧
      ∀ i, i < 3 → t.get_address (varName i) = some (16 + i)) ∧
    (allocRun 16368).1 = Except.error ErrorKind.RAMFull ∧
    (allocRun 16368).2.get_address (varName 16367) = some 16383 :=
  C4_amended_variable_exhaustion 3 (by decide)

end Assembler
